import Mathlib

/-!
Verification of the transcribe-whisper pipeline against its specification.

The Python sources are shallowly embedded:
- timestamp formatting (`transcribe.py:format_timestamp`, `main.py:format_timestamp`)
  is modelled over exact microsecond counts (Python `timedelta` stores an exact
  integer number of microseconds; `timedelta(seconds=x)` normalises so that
  `td.seconds = (us / 10^6) % 86400` and `td.microseconds = us % 10^6`);
- keyword/regex matching (`invoke.py:filter_files_by_keywords`,
  `take.py:load_keywords_from_file` + `filter_keywords`) is modelled by the
  semantics of the literal-alternation patterns the code builds, over `List Char`;
- the `transcribe` pipeline (`transcribe.py:transcribe`) is modelled as a
  function on an association-list filesystem, returning a trace of filesystem
  snapshots plus an outcome;
- `invoke.py:sort_files_by_size` is modelled with a stable sort
  (Python `sorted` is stable);
- the signal handlers and the main loops are modelled as explicit state machines.
-/

/-! ## Timestamp formatting (transcribe.py lines 52-56, main.py lines 7-11) -/

/-- Zero-padding to at least two digits, the semantics of Python `f"{n:02d}"`
for nonnegative `n`. -/
def pad2 (n : Nat) : String :=
  if n < 10 then "0" ++ Nat.repr n else Nat.repr n

/-- Zero-padding to at least three digits, the semantics of Python `f"{n:03d}"`
for nonnegative `n`. -/
def pad3 (n : Nat) : String :=
  if n < 10 then "00" ++ Nat.repr n
  else if n < 100 then "0" ++ Nat.repr n
  else Nat.repr n

namespace Transcribe

/-- Embedding of `transcribe.py:format_timestamp`.  The input is the exact
value of the timedelta in microseconds; `td.seconds` and `td.microseconds`
are the normalised fields of Python `timedelta`.  The final field of the
source is `f"{td.microseconds//10_000:02d}"`. -/
def format_timestamp (us : Nat) : String :=
  let tdSeconds := us / 1000000 % 86400
  let tdMicroseconds := us % 1000000
  let hours := tdSeconds / 3600
  let remainder := tdSeconds % 3600
  let minutes := remainder / 60
  let seconds := remainder % 60
  pad2 hours ++ ":" ++ pad2 minutes ++ ":" ++ pad2 seconds ++ "." ++
    pad2 (tdMicroseconds / 10000)

end Transcribe

namespace MainPy

/-- Embedding of `main.py:format_timestamp`.  Identical to the version in
`transcribe.py` except for the final field, which the source renders as
`f"{td.microseconds//1000:03d}"`. -/
def format_timestamp (us : Nat) : String :=
  let tdSeconds := us / 1000000 % 86400
  let tdMicroseconds := us % 1000000
  let hours := tdSeconds / 3600
  let remainder := tdSeconds % 3600
  let minutes := remainder / 60
  let seconds := remainder % 60
  pad2 hours ++ ":" ++ pad2 minutes ++ ":" ++ pad2 seconds ++ "." ++
    pad3 (tdMicroseconds / 1000)

end MainPy

theorem transcribe_format_congr {a b : Nat}
    (h1 : a / 1000000 % 86400 = b / 1000000 % 86400)
    (h2 : a % 1000000 / 10000 = b % 1000000 / 10000) :
    Transcribe.format_timestamp a = Transcribe.format_timestamp b := by
  simp only [Transcribe.format_timestamp]
  rw [h1, h2]

theorem mainpy_format_congr {a b : Nat}
    (h1 : a / 1000000 % 86400 = b / 1000000 % 86400)
    (h2 : a % 1000000 / 1000 = b % 1000000 / 1000) :
    MainPy.format_timestamp a = MainPy.format_timestamp b := by
  simp only [MainPy.format_timestamp]
  rw [h1, h2]

/-! ## Keyword matching

`invoke.py:filter_files_by_keywords` runs, for each keyword `k`,
`re.match(rf'(\b{k}|{k}\b)', basename, re.IGNORECASE)` — `re.match` anchors at
position 0 of the basename.

`take.py:load_keywords_from_file` builds one pattern
`(\b(k1|...|kn)|(k1|...|kn)\b)` from the escaped, sorted keywords and
`take.py:filter_keywords` applies it with `.search`, which tries every
position.  With an empty keyword set the built alternation group is `()`,
which matches the empty string, so the pattern degenerates to a bare `\b`.

Keywords in the claims ("rohn") contain no regex metacharacters, so both
patterns are modelled as literal matches with word-boundary conditions. -/

/-- Python regex `\w` for ASCII input: letters, digits and underscore. -/
def isWordChar (c : Char) : Bool :=
  c.isAlphanum || c == '_'

/-- Whether the character at position `i` of `s` exists and is a word
character (out-of-range counts as non-word). -/
def wordAt (s : List Char) (i : Nat) : Bool :=
  match s[i]? with
  | some c => isWordChar c
  | none => false

/-- Python regex `\b` holds at position `i` (0 ≤ i ≤ length) iff word-ness
differs across the boundary, positions outside the string being non-word. -/
def boundaryAt (s : List Char) (i : Nat) : Bool :=
  match i with
  | 0 => wordAt s 0
  | j + 1 => wordAt s j != wordAt s (j + 1)

/-- Case-insensitive literal match of the pattern characters against an
initial segment of the subject, the semantics of `re.IGNORECASE` on a
literal for ASCII. -/
def matchCI : List Char → List Char → Bool
  | [], _ => true
  | _ :: _, [] => false
  | k :: ks, c :: cs => (k.toLower == c.toLower) && matchCI ks cs

/-- A literal keyword occurs (case-insensitively) at position `i` of `s`. -/
def litAt (kw s : List Char) (i : Nat) : Bool :=
  matchCI kw (s.drop i)

/-- The regex fragment `(\bkw|kw\b)` matches at position `i` of `s`. -/
def kwMatchAt (kw s : List Char) (i : Nat) : Bool :=
  (boundaryAt s i && litAt kw s i) || (litAt kw s i && boundaryAt s (i + kw.length))

/-- Index of the last occurrence of `c` in `cs`, if any. -/
def lastIdxOf (cs : List Char) (c : Char) : Option Nat :=
  ((List.range cs.length).filter (fun i => cs[i]? == some c)).getLast?

/-- Embedding of `os.path.basename`: the part of the path after the last
slash. -/
def basename (p : String) : String :=
  match lastIdxOf p.data '/' with
  | some i => String.mk (p.data.drop (i + 1))
  | none => p

/-- Embedding of the per-file test in `invoke.py:filter_files_by_keywords`:
`any(re.match(rf'(\b{keyword}|{keyword}\b)', fn, re.IGNORECASE) for keyword
in keywords)` where `fn = os.path.basename(file_path)`.  `re.match` only
tries position 0. -/
def filter_files_by_keywords_match (keywords : List (List Char)) (file_path : String) : Bool :=
  keywords.any (fun kw => kwMatchAt kw (basename file_path).data 0)

/-- The alternation `(\bG|G\b)` built by `take.py:load_keywords_from_file`,
matched at position `i`: `G` is the group of escaped keywords, which for an
empty keyword set is the empty group `()` matching the empty string. -/
def takeAltAt (keywords : List (List Char)) (s : List Char) (i : Nat) : Bool :=
  if keywords.isEmpty then boundaryAt s i
  else
    (boundaryAt s i && keywords.any (fun kw => litAt kw s i)) ||
      keywords.any (fun kw => litAt kw s i && boundaryAt s (i + kw.length))

/-- Embedding of `take.py:filter_keywords`: `keyword_matcher.search(file_path)`
succeeds iff the compiled pattern matches at some position of the path. -/
def takeSearch (keywords : List (List Char)) (s : List Char) : Bool :=
  (List.range (s.length + 1)).any (fun i => takeAltAt keywords s i)


/-! ## Sorting by size (invoke.py lines 58-71, `sort_files_by_size`)

The source pairs each discovered item with its size
(`(file_path, os.path.getsize(...))`), sorts with Python `sorted` keyed on
the size, and yields the items in sorted order.  Python `sorted` is a stable
sort; `List.insertionSort` with the total preorder `a.2 ≤ b.2` is also
stable, and a stable sort's output is uniquely determined by the key order
and the input order, so the two agree.  An item is modelled as its path,
paired with its size in bytes. -/

/-- The pairs `(item, size)` in the order Python `sorted(..., key=lambda x: x[1])`
produces them. -/
def sortedPairs (files : List (String × Nat)) : List (String × Nat) :=
  files.insertionSort (fun a b => a.2 ≤ b.2)

/-- Embedding of `invoke.py:sort_files_by_size`: yield the items of the
size-sorted pair list. -/
def sort_files_by_size (files : List (String × Nat)) : List String :=
  (sortedPairs files).map Prod.fst

instance : IsTotal (String × Nat) (fun a b => a.2 ≤ b.2) :=
  ⟨fun a b => Nat.le_total a.2 b.2⟩

instance : IsTrans (String × Nat) (fun a b => a.2 ≤ b.2) :=
  ⟨fun _ _ _ h1 h2 => Nat.le_trans h1 h2⟩

theorem filter_orderedInsert_pos (s : Nat) (x : String × Nat)
    (l : List (String × Nat)) (hx : x.2 = s) :
    (l.orderedInsert (fun a b => a.2 ≤ b.2) x).filter (fun y => y.2 == s) =
      x :: l.filter (fun y => y.2 == s) := by
  subst hx
  induction l with
  | nil => simp [List.orderedInsert, List.filter]
  | cons b t ih =>
    by_cases h : x.2 ≤ b.2
    · simp [List.orderedInsert, h, List.filter]
    · have hb : (b.2 == x.2) = false := by
        simp only [beq_eq_false_iff_ne]
        omega
      simp [List.orderedInsert, h, List.filter, hb, ih]

theorem filter_orderedInsert_neg (s : Nat) (x : String × Nat)
    (l : List (String × Nat)) (hx : x.2 ≠ s) :
    (l.orderedInsert (fun a b => a.2 ≤ b.2) x).filter (fun y => y.2 == s) =
      l.filter (fun y => y.2 == s) := by
  have hxb : (x.2 == s) = false := by
    simp only [beq_eq_false_iff_ne]
    exact hx
  induction l with
  | nil => simp [List.orderedInsert, List.filter, hxb]
  | cons b t ih =>
    by_cases h : x.2 ≤ b.2
    · simp [List.orderedInsert, h, List.filter, hxb]
    · simp [List.orderedInsert, h, List.filter, ih]

theorem sortedPairs_filter_stable (s : Nat) (l : List (String × Nat)) :
    (sortedPairs l).filter (fun y => y.2 == s) = l.filter (fun y => y.2 == s) := by
  simp only [sortedPairs]
  induction l with
  | nil => rfl
  | cons x t ih =>
    simp only [List.insertionSort]
    by_cases hx : x.2 = s
    · rw [filter_orderedInsert_pos s x _ hx, ih]
      simp [List.filter, hx]
    · rw [filter_orderedInsert_neg s x _ hx, ih]
      have hxb : (x.2 == s) = false := by
        simp only [beq_eq_false_iff_ne]
        exact hx
      simp [List.filter, hxb]


/-! ## The transcribe pipeline (transcribe.py lines 104-159)

The filesystem is an association list from paths to contents (contents
abstracted as `Nat`).  `transcribe` is embedded as a function of the
initial filesystem, the original filename, the preserve flag, and oracles
for the external tools: `probe` is the result of `get_file_streams`
(`none` models the `KeyError` branch, "file doesn't have streams"),
`muxOk` is whether the external `ffmpeg` mux invocation exits zero, and
`moveOk` is whether `shutil.move` succeeds.  The run returns a trace of
snapshots `(main filesystem, temporary working file)` taken after each
effectful statement, whether the recognition engine (`get_srt`) was
invoked, and the outcome.  `copy_mod_access_times` and
`copy_xattrs_and_tags` touch only metadata and are not modelled. -/

abbrev Fs := List (String × Nat)

/-- Lookup of a path in the association-list filesystem. -/
def fsLookup (fs : Fs) (p : String) : Option Nat :=
  (fs.find? (fun e => e.1 == p)).map (fun e => e.2)

/-- Remove a path (models `os.remove`). -/
def fsErase (fs : Fs) (p : String) : Fs :=
  fs.filter (fun e => e.1 != p)

/-- Create or overwrite a file (models `shutil.move` into the destination). -/
def fsInsert (fs : Fs) (p : String) (c : Nat) : Fs :=
  (p, c) :: fsErase fs p

/-- One stream record as returned by `ffprobe -show_streams`. -/
structure ProbedStream where
  codec_type : String
deriving DecidableEq

/-- Embedding of `transcribe.py:has_subtitle_stream`. -/
def has_subtitle_stream (streams : List ProbedStream) : Bool :=
  streams.any (fun stream => stream.codec_type == "subtitle")

/-- Embedding of `transcribe.py:has_only_audio_and_subtitles`. -/
def has_only_audio_and_subtitles (streams : List ProbedStream) : Bool :=
  streams.all (fun stream => stream.codec_type == "audio" || stream.codec_type == "subtitle")

/-- Embedding of `os.path.splitext(p)[0]` (posixpath): if the last dot lies
after the last slash and some character of the basename before that dot is
not a dot, the root is everything before the last dot; otherwise the whole
path. -/
def splitextRoot (p : String) : String :=
  let cs := p.data
  match lastIdxOf cs '.' with
  | none => p
  | some d =>
    let fstart := match lastIdxOf cs '/' with
      | some i => i + 1
      | none => 0
    if d < fstart then p
    else if (List.range (d - fstart)).any (fun k => cs[fstart + k]? != some '.') then
      String.mk (cs.take d)
    else p

/-- The destination filename `transcribe` computes:
`os.path.splitext(orig_fn)[0] + output_ext` with `output_ext` chosen by
the stream inventory; when probing failed (`KeyError`) no destination is
computed and the function has already returned `orig_fn`. -/
def dest_fn (orig_fn : String) (probe : Option (List ProbedStream)) : String :=
  match probe with
  | none => orig_fn
  | some streams =>
      splitextRoot orig_fn ++ (if has_only_audio_and_subtitles streams then ".mka" else ".mkv")

/-- How a `transcribe` run terminates.  `muxFailed` and `moveFailed` are the
propagated `CalledProcessError` of the mux step and the exception of
`shutil.move`; the other constructors are the source's return paths. -/
inductive Outcome where
  | notFound
  | noStreams
  | skipped
  | muxFailed
  | moveFailed
  | done (dest : String)
deriving DecidableEq

/-- A recorded run of `transcribe`: filesystem snapshots (main filesystem,
content of the temporary working file if present) after each effectful
statement, whether the recognition engine was invoked, and the outcome. -/
structure TranscribeRun where
  trace : List (Fs × Option Nat)
  engineInvoked : Bool
  outcome : Outcome
deriving DecidableEq

/-- Embedding of `transcribe.py:transcribe`.  Control flow in source order:
the existence check, `get_file_streams` with its `KeyError` handler, the
subtitle-stream skip, `get_srt`, the mux into the temporary working file,
the move to the destination, and the conditional removal of the original. -/
def transcribe (fs : Fs) (orig_fn : String) (preserve_original : Bool)
    (probe : Option (List ProbedStream)) (muxOk : Bool) (muxedContent : Nat)
    (moveOk : Bool) : TranscribeRun :=
  if fsLookup fs orig_fn = none then
    ⟨[(fs, none)], false, .notFound⟩
  else
    match probe with
    | none => ⟨[(fs, none)], false, .noStreams⟩
    | some streams =>
      if has_subtitle_stream streams then
        ⟨[(fs, none)], false, .skipped⟩
      else
        let dest := splitextRoot orig_fn ++
          (if has_only_audio_and_subtitles streams then ".mka" else ".mkv")
        if muxOk = false then
          ⟨[(fs, none), (fs, none)], true, .muxFailed⟩
        else if moveOk = false then
          ⟨[(fs, none), (fs, some muxedContent), (fs, none)], true, .moveFailed⟩
        else
          let fs2 := fsInsert fs dest muxedContent
          if orig_fn != dest && !preserve_original then
            ⟨[(fs, none), (fs, some muxedContent), (fs2, none),
                (fsErase fs2 orig_fn, none)], true, .done dest⟩
          else
            ⟨[(fs, none), (fs, some muxedContent), (fs2, none)], true, .done dest⟩

theorem find?_fsErase_ne (fs : Fs) (p q : String) (h : q ≠ p) :
    (fsErase fs p).find? (fun e => e.1 == q) = fs.find? (fun e => e.1 == q) := by
  induction fs with
  | nil => rfl
  | cons a t ih =>
    by_cases hap : a.1 = p
    · have h1 : (a.1 != p) = false := by simp [hap]
      have h2 : (a.1 == q) = false := by
        simp only [beq_eq_false_iff_ne, hap]
        exact fun hpq => h hpq.symm
      simp only [fsErase, List.filter] at ih ⊢
      rw [h1]
      simp only [List.find?, h2]
      exact ih
    · have h1 : (a.1 != p) = true := by simp [hap]
      simp only [fsErase, List.filter] at ih ⊢
      rw [h1]
      by_cases haq : a.1 = q
      · have h2 : (a.1 == q) = true := by simp [haq]
        simp [List.find?, h2]
      · have h2 : (a.1 == q) = false := by simp [haq]
        simp only [List.find?, h2]
        exact ih

theorem fsLookup_fsErase_ne (fs : Fs) (p q : String) (h : q ≠ p) :
    fsLookup (fsErase fs p) q = fsLookup fs q := by
  simp only [fsLookup, find?_fsErase_ne fs p q h]

theorem fsLookup_fsErase_self (fs : Fs) (p : String) :
    fsLookup (fsErase fs p) p = none := by
  induction fs with
  | nil => rfl
  | cons a t ih =>
    by_cases hap : a.1 = p
    · have h1 : (a.1 != p) = false := by simp [hap]
      simp only [fsLookup, fsErase, List.filter] at ih ⊢
      rw [h1]
      exact ih
    · have h1 : (a.1 != p) = true := by simp [hap]
      have h2 : (a.1 == p) = false := by simp [hap]
      simp only [fsLookup, fsErase, List.filter] at ih ⊢
      rw [h1]
      simp only [List.find?, h2]
      exact ih

theorem fsLookup_fsInsert_self (fs : Fs) (p : String) (c : Nat) :
    fsLookup (fsInsert fs p c) p = some c := by
  simp [fsLookup, fsInsert, List.find?]

theorem fsLookup_fsInsert_ne (fs : Fs) (p q : String) (c : Nat) (h : q ≠ p) :
    fsLookup (fsInsert fs p c) q = fsLookup fs q := by
  have h2 : (p == q) = false := by
    simp only [beq_eq_false_iff_ne]
    exact fun hpq => h hpq.symm
  simp only [fsInsert, fsLookup, List.find?, h2]
  exact fsLookup_fsErase_ne fs p q h

/-! ## Signal handling and process-level control flow

`transcribe.py` (lines 20-50, 205-212): globals `continue_processing` and
`sigint_count`; SIGHUP and the first SIGINT set `continue_processing =
False`; a second SIGINT calls `sys.exit(0)`, which terminates the process
with exit status 0; the `__main__` loop resets `sigint_count = 0` after
each file.

`invoke.py` (lines 17-35, 173-226): `signal_handler_first` sets
`STOP_AFTER_CURRENT = True` and installs `signal_handler_second`, which
calls `sys.exit()`; `sys.exit()` with no argument also terminates the
process with exit status 0.  `process_files` exits with status 1 when the
loaded keyword set is empty, before the lazy scan/filter generators are
ever pulled; otherwise it keyword-filters the files, sorts them by size,
probes each in order and hands the ones passing the stream and audio-level
checks to `transcribe`.

`take.py` (lines 18-26, 56-67): `signal_handler` sets `stop_flag = True`;
there is no empty-keyword check anywhere — `filter_files` applies the
compiled pattern and then calls `has_audio_stream` (a probe) on every path
that passes the suffix and keyword filters. -/

namespace Transcribe

/-- The two globals of `transcribe.py`. -/
structure SigState where
  continue_processing : Bool
  sigint_count : Nat
deriving DecidableEq

inductive Sig where
  | sighup
  | sigint
deriving DecidableEq

/-- Embedding of `transcribe.py:signal_handler`: returns the new global
state and, when `sys.exit` is called, the process exit status.  The second
SIGINT runs `sys.exit(0)`: status 0. -/
def signal_handler : Sig → SigState → SigState × Option Nat
  | .sighup, s => ({ s with continue_processing := false }, none)
  | .sigint, s =>
    let n := s.sigint_count + 1
    if n == 1 then ({ continue_processing := false, sigint_count := n }, none)
    else ({ s with sigint_count := n }, some 0)

/-- Events observable by the globals during the `__main__` loop of
`transcribe.py`: the two signals and the completion of one file, after
which line 212 resets `sigint_count = 0`. -/
inductive LoopEvent where
  | sighup
  | sigint
  | fileComplete
deriving DecidableEq

/-- One event's effect on the globals. -/
def loop_step (s : SigState) : LoopEvent → SigState
  | .sighup => (signal_handler .sighup s).1
  | .sigint => (signal_handler .sigint s).1
  | .fileComplete => { s with sigint_count := 0 }

/-- The globals after a sequence of events, from the initial state
`continue_processing = True, sigint_count = 0`. -/
def loop_run (events : List LoopEvent) : SigState :=
  events.foldl loop_step ⟨true, 0⟩

end Transcribe

namespace Invoke

/-- The global `STOP_AFTER_CURRENT` together with which SIGINT handler is
currently installed in `invoke.py`. -/
structure SigState where
  stop_after_current : Bool
  handler_is_second : Bool
deriving DecidableEq

/-- One SIGINT under `invoke.py`'s two-stage handlers; the second handler
calls `sys.exit()`, i.e. exit status 0. -/
def sigint_step (s : SigState) : SigState × Option Nat :=
  if s.handler_is_second then (s, some 0)
  else ({ stop_after_current := true, handler_is_second := true }, none)

/-- Embedding of `invoke.py:process_files`.  Arguments: the loaded keyword
set, the discovered files with their sizes, and oracles for the three
per-file probes (`has_subtitle_stream`, `has_audio_stream`,
`analyze_audio_levels`).  Returns the early-exit status (`sys.exit(1)` on
an empty keyword set, before any file is touched — the scan and filter
generators are lazy), the paths probed by the loop in order, and the paths
handed to the `transcribe` step. -/
def process_files (keywords : List (List Char)) (all_files : List (String × Nat))
    (hasSub hasAud audOk : String → Bool) :
    Option Nat × List String × List String :=
  if keywords.isEmpty then (some 1, [], [])
  else
    let filtered := all_files.filter (fun f => filter_files_by_keywords_match keywords f.1)
    let sortedf := sortedPairs filtered
    let transcribed :=
      (sortedf.filter (fun f => !hasSub f.1 && (hasAud f.1 && audOk f.1))).map (fun f => f.1)
    (none, sortedf.map (fun f => f.1), transcribed)

end Invoke

namespace Take

/-- Embedding of `take.py:signal_handler`: SIGINT sets `stop_flag = True`
regardless of the previous value; nothing in `take.py` ever resets it. -/
def signal_handler (_stop_flag : Bool) : Bool := true

/-- Python `path.endswith(suffixes)` for a tuple of suffixes. -/
def endsWithAny (p : String) (suffixes : List String) : Bool :=
  suffixes.any (fun s => s.data.isSuffixOf p.data)

/-- Embedding of the configuration handling and candidate filtering of
`take.py`: `main`/`filter_files` perform no empty-keyword check; every
path passing the suffix exclusion and the compiled keyword pattern is then
probed with `has_audio_stream`.  Returns the early-exit status (`take.py`
has no configuration exit, hence always `none`) and the probed paths. -/
def run_filter (keywords : List (List Char)) (files : List String) :
    Option Nat × List String :=
  (none, files.filter (fun p => !(endsWithAny p [".srt", ".xz"]) && takeSearch keywords p.data))

end Take


theorem transcribe_eq_noStreams (fs : Fs) (orig_fn : String) (c : Nat)
    (preserve_original muxOk moveOk : Bool) (muxedContent : Nat)
    (horig : fsLookup fs orig_fn = some c) :
    transcribe fs orig_fn preserve_original none muxOk muxedContent moveOk =
      ⟨[(fs, none)], false, Outcome.noStreams⟩ := by
  simp [transcribe, horig]

theorem transcribe_eq_skipped (fs : Fs) (orig_fn : String) (c : Nat)
    (preserve_original muxOk moveOk : Bool) (streams : List ProbedStream) (muxedContent : Nat)
    (horig : fsLookup fs orig_fn = some c)
    (hs : has_subtitle_stream streams = true) :
    transcribe fs orig_fn preserve_original (some streams) muxOk muxedContent moveOk =
      ⟨[(fs, none)], false, Outcome.skipped⟩ := by
  simp [transcribe, horig, hs]

theorem transcribe_eq_muxFailed (fs : Fs) (orig_fn : String) (c : Nat)
    (preserve_original moveOk : Bool) (streams : List ProbedStream) (muxedContent : Nat)
    (horig : fsLookup fs orig_fn = some c)
    (hs : has_subtitle_stream streams = false) :
    transcribe fs orig_fn preserve_original (some streams) false muxedContent moveOk =
      ⟨[(fs, none), (fs, none)], true, Outcome.muxFailed⟩ := by
  simp [transcribe, horig, hs]

theorem transcribe_eq_moveFailed (fs : Fs) (orig_fn : String) (c : Nat)
    (preserve_original : Bool) (streams : List ProbedStream) (muxedContent : Nat)
    (horig : fsLookup fs orig_fn = some c)
    (hs : has_subtitle_stream streams = false) :
    transcribe fs orig_fn preserve_original (some streams) true muxedContent false =
      ⟨[(fs, none), (fs, some muxedContent), (fs, none)], true, Outcome.moveFailed⟩ := by
  simp [transcribe, horig, hs]

theorem transcribe_eq_done_remove (fs : Fs) (orig_fn : String) (c : Nat)
    (preserve_original : Bool) (streams : List ProbedStream) (muxedContent : Nat)
    (horig : fsLookup fs orig_fn = some c)
    (hs : has_subtitle_stream streams = false)
    (hb : (orig_fn != (splitextRoot orig_fn ++
        (if has_only_audio_and_subtitles streams then ".mka" else ".mkv"))
        && !preserve_original) = true) :
    transcribe fs orig_fn preserve_original (some streams) true muxedContent true =
      ⟨[(fs, none), (fs, some muxedContent),
          (fsInsert fs (dest_fn orig_fn (some streams)) muxedContent, none),
          (fsErase (fsInsert fs (dest_fn orig_fn (some streams)) muxedContent) orig_fn, none)],
        true, Outcome.done (dest_fn orig_fn (some streams))⟩ := by
  simp [transcribe, horig, hs, hb, dest_fn]

theorem transcribe_eq_done_keep (fs : Fs) (orig_fn : String) (c : Nat)
    (preserve_original : Bool) (streams : List ProbedStream) (muxedContent : Nat)
    (horig : fsLookup fs orig_fn = some c)
    (hs : has_subtitle_stream streams = false)
    (hb : (orig_fn != (splitextRoot orig_fn ++
        (if has_only_audio_and_subtitles streams then ".mka" else ".mkv"))
        && !preserve_original) = false) :
    transcribe fs orig_fn preserve_original (some streams) true muxedContent true =
      ⟨[(fs, none), (fs, some muxedContent),
          (fsInsert fs (dest_fn orig_fn (some streams)) muxedContent, none)],
        true, Outcome.done (dest_fn orig_fn (some streams))⟩ := by
  simp [transcribe, horig, hs, hb, dest_fn]

theorem transcribe_trace_preserves (fs : Fs) (orig_fn : String) (c : Nat)
    (preserve_original : Bool) (probe : Option (List ProbedStream))
    (muxOk : Bool) (muxedContent : Nat) (moveOk : Bool)
    (horig : fsLookup fs orig_fn = some c) :
    ∀ st ∈ (transcribe fs orig_fn preserve_original probe muxOk muxedContent moveOk).trace,
      fsLookup st.1 orig_fn = some c ∨
        fsLookup st.1 (dest_fn orig_fn probe) = some muxedContent := by
  cases probe with
  | none =>
    rw [transcribe_eq_noStreams fs orig_fn c preserve_original muxOk moveOk muxedContent horig]
    intro st hst
    simp only [List.mem_singleton] at hst
    subst hst
    exact Or.inl horig
  | some streams =>
    cases hs : has_subtitle_stream streams with
    | true =>
      rw [transcribe_eq_skipped fs orig_fn c preserve_original muxOk moveOk streams
        muxedContent horig hs]
      intro st hst
      simp only [List.mem_singleton] at hst
      subst hst
      exact Or.inl horig
    | false =>
      cases muxOk with
      | false =>
        rw [transcribe_eq_muxFailed fs orig_fn c preserve_original moveOk streams
          muxedContent horig hs]
        intro st hst
        simp only [List.mem_cons, List.not_mem_nil, or_false] at hst
        rcases hst with rfl | rfl <;> exact Or.inl horig
      | true =>
        cases moveOk with
        | false =>
          rw [transcribe_eq_moveFailed fs orig_fn c preserve_original streams
            muxedContent horig hs]
          intro st hst
          simp only [List.mem_cons, List.not_mem_nil, or_false] at hst
          rcases hst with rfl | rfl | rfl <;> exact Or.inl horig
        | true =>
          cases hb : (orig_fn != (splitextRoot orig_fn ++
              (if has_only_audio_and_subtitles streams then ".mka" else ".mkv"))
              && !preserve_original) with
          | false =>
            rw [transcribe_eq_done_keep fs orig_fn c preserve_original streams
              muxedContent horig hs hb]
            intro st hst
            simp only [List.mem_cons, List.not_mem_nil, or_false] at hst
            rcases hst with rfl | rfl | rfl
            · exact Or.inl horig
            · exact Or.inl horig
            · exact Or.inr (fsLookup_fsInsert_self fs _ muxedContent)
          | true =>
            have hne : orig_fn ≠ splitextRoot orig_fn ++
                (if has_only_audio_and_subtitles streams then ".mka" else ".mkv") :=
              bne_iff_ne.mp ((Bool.and_eq_true _ _).mp hb).1
            have hne2 : dest_fn orig_fn (some streams) ≠ orig_fn := by
              simp only [dest_fn]
              exact Ne.symm hne
            rw [transcribe_eq_done_remove fs orig_fn c preserve_original streams
              muxedContent horig hs hb]
            intro st hst
            simp only [List.mem_cons, List.not_mem_nil, or_false] at hst
            rcases hst with rfl | rfl | rfl | rfl
            · exact Or.inl horig
            · exact Or.inl horig
            · exact Or.inr (fsLookup_fsInsert_self fs _ muxedContent)
            · refine Or.inr ?_
              rw [fsLookup_fsErase_ne _ orig_fn _ hne2]
              exact fsLookup_fsInsert_self fs _ muxedContent

/-- C1: for every input file on which the mux step fails (the external
muxer exits non-zero, `check_output` raising `CalledProcessError`), the
original file still exists with unchanged contents, no file exists at the
destination path, the temporary working file is discarded with its
temporary directory, and the run terminates with the mux failure; moreover
for any run of the pipeline, every intermediate filesystem snapshot holds
either the original caption-less file or the fully-muxed replacement. -/
theorem mux_failure_is_transactional
    (fs : Fs) (orig_fn : String) (preserve_original : Bool)
    (streams : List ProbedStream) (muxedContent : Nat) (moveOk : Bool) (c : Nat)
    (horig : fsLookup fs orig_fn = some c)
    (hs : has_subtitle_stream streams = false)
    (hdest : fsLookup fs (dest_fn orig_fn (some streams)) = none) :
    (transcribe fs orig_fn preserve_original (some streams) false muxedContent moveOk).outcome
        = Outcome.muxFailed
    ∧ (transcribe fs orig_fn preserve_original (some streams) false muxedContent
        moveOk).trace.getLast? = some (fs, none)
    ∧ (∀ st ∈ (transcribe fs orig_fn preserve_original (some streams) false muxedContent
          moveOk).trace,
        fsLookup st.1 orig_fn = some c
        ∧ fsLookup st.1 (dest_fn orig_fn (some streams)) = none
        ∧ st.2 = none)
    ∧ (∀ (p2 : Bool) (probe2 : Option (List ProbedStream)) (m2 : Bool) (c2 : Nat) (v2 : Bool),
        ∀ st ∈ (transcribe fs orig_fn p2 probe2 m2 c2 v2).trace,
          fsLookup st.1 orig_fn = some c ∨ fsLookup st.1 (dest_fn orig_fn probe2) = some c2) := by
  refine ⟨?_, ?_, ?_, ?_⟩
  · rw [transcribe_eq_muxFailed fs orig_fn c preserve_original moveOk streams muxedContent
      horig hs]
  · rw [transcribe_eq_muxFailed fs orig_fn c preserve_original moveOk streams muxedContent
      horig hs]
    rfl
  · rw [transcribe_eq_muxFailed fs orig_fn c preserve_original moveOk streams muxedContent
      horig hs]
    intro st hst
    simp only [List.mem_cons, List.not_mem_nil, or_false] at hst
    rcases hst with rfl | rfl <;> exact ⟨horig, hdest, rfl⟩
  · intro p2 probe2 m2 c2 v2
    exact transcribe_trace_preserves fs orig_fn c p2 probe2 m2 c2 v2 horig

/-- C1 witness: a concrete mux-failure run on `fs = [("a.mp4", 7)]`. -/
theorem mux_failure_is_transactional_witness :
    fsLookup [("a.mp4", 7)] "a.mp4" = some 7
    ∧ has_subtitle_stream [ProbedStream.mk "video", ProbedStream.mk "audio"] = false
    ∧ fsLookup [("a.mp4", 7)]
        (dest_fn "a.mp4" (some [ProbedStream.mk "video", ProbedStream.mk "audio"])) = none
    ∧ (transcribe [("a.mp4", 7)] "a.mp4" false
        (some [ProbedStream.mk "video", ProbedStream.mk "audio"]) false 99 true).outcome
        = Outcome.muxFailed :=
  ⟨by decide, by decide, by decide,
    (mux_failure_is_transactional [("a.mp4", 7)] "a.mp4" false
      [ProbedStream.mk "video", ProbedStream.mk "audio"] 99 true 7
      (by decide) (by decide) (by decide)).1⟩

/-- C2: in `transcribe`, the original source file is deleted exactly when
the mux and the move both succeeded, the source path differs from the
destination path, and the caller did not set the preserve-original flag;
and at any point of the run where the original is absent, the move to the
destination has already succeeded. -/
theorem original_removed_iff_after_successful_move
    (fs : Fs) (orig_fn : String) (preserve_original : Bool)
    (streams : List ProbedStream) (muxOk : Bool) (muxedContent : Nat) (moveOk : Bool) (c : Nat)
    (horig : fsLookup fs orig_fn = some c)
    (hs : has_subtitle_stream streams = false) :
    (∀ fsf temp,
      (transcribe fs orig_fn preserve_original (some streams) muxOk muxedContent
        moveOk).trace.getLast? = some (fsf, temp) →
      (fsLookup fsf orig_fn = none ↔
        (muxOk = true ∧ moveOk = true ∧ orig_fn ≠ dest_fn orig_fn (some streams)
          ∧ preserve_original = false)))
    ∧ (∀ st ∈ (transcribe fs orig_fn preserve_original (some streams) muxOk muxedContent
          moveOk).trace,
        fsLookup st.1 orig_fn = none →
          muxOk = true ∧ moveOk = true ∧ preserve_original = false
          ∧ orig_fn ≠ dest_fn orig_fn (some streams)
          ∧ fsLookup st.1 (dest_fn orig_fn (some streams)) = some muxedContent) := by
  have hdf : dest_fn orig_fn (some streams) = splitextRoot orig_fn ++
      (if has_only_audio_and_subtitles streams then ".mka" else ".mkv") := rfl
  cases muxOk with
  | false =>
    rw [transcribe_eq_muxFailed fs orig_fn c preserve_original moveOk streams muxedContent
      horig hs]
    constructor
    · intro fsf temp h
      simp only [List.getLast?] at h
      have h2 : fs = fsf := by
        simp at h
        exact h.1
      subst h2
      constructor
      · intro hnone
        rw [horig] at hnone
        cases hnone
      · rintro ⟨hfalse, -⟩
        cases hfalse
    · intro st hst hnone
      simp only [List.mem_cons, List.not_mem_nil, or_false] at hst
      rcases hst with rfl | rfl <;> (rw [horig] at hnone; cases hnone)
  | true =>
    cases moveOk with
    | false =>
      rw [transcribe_eq_moveFailed fs orig_fn c preserve_original streams muxedContent
        horig hs]
      constructor
      · intro fsf temp h
        have h2 : fs = fsf := by
          simp at h
          exact h.1
        subst h2
        constructor
        · intro hnone
          rw [horig] at hnone
          cases hnone
        · rintro ⟨-, hfalse, -⟩
          cases hfalse
      · intro st hst hnone
        simp only [List.mem_cons, List.not_mem_nil, or_false] at hst
        rcases hst with rfl | rfl | rfl <;> (rw [horig] at hnone; cases hnone)
    | true =>
      cases hb : (orig_fn != (splitextRoot orig_fn ++
          (if has_only_audio_and_subtitles streams then ".mka" else ".mkv"))
          && !preserve_original) with
      | true =>
        have hband := (Bool.and_eq_true _ _).mp hb
        have hne : orig_fn ≠ dest_fn orig_fn (some streams) := by
          rw [hdf]
          exact bne_iff_ne.mp hband.1
        have hpres : preserve_original = false := by
          have := hband.2
          cases preserve_original with
          | false => rfl
          | true => cases this
        rw [transcribe_eq_done_remove fs orig_fn c preserve_original streams muxedContent
          horig hs hb]
        constructor
        · intro fsf temp h
          have h2 : fsErase (fsInsert fs (dest_fn orig_fn (some streams)) muxedContent)
              orig_fn = fsf := by
            simp at h
            exact h.1
          subst h2
          have : fsLookup (fsErase (fsInsert fs (dest_fn orig_fn (some streams)) muxedContent)
              orig_fn) orig_fn = none := fsLookup_fsErase_self _ _
          simp only [this]
          simp [hne, hpres]
        · intro st hst hnone
          simp only [List.mem_cons, List.not_mem_nil, or_false] at hst
          rcases hst with rfl | rfl | rfl | rfl
          · rw [horig] at hnone
            cases hnone
          · rw [horig] at hnone
            cases hnone
          · rw [fsLookup_fsInsert_ne fs _ orig_fn muxedContent hne] at hnone
            rw [horig] at hnone
            cases hnone
          · refine ⟨rfl, rfl, hpres, hne, ?_⟩
            rw [fsLookup_fsErase_ne _ orig_fn _ (Ne.symm hne)]
            exact fsLookup_fsInsert_self fs _ muxedContent
      | false =>
        rw [transcribe_eq_done_keep fs orig_fn c preserve_original streams muxedContent
          horig hs hb]
        have hcase : orig_fn = dest_fn orig_fn (some streams) ∨ preserve_original = true := by
          by_cases hod : orig_fn = splitextRoot orig_fn ++
              (if has_only_audio_and_subtitles streams then ".mka" else ".mkv")
          · left
            rw [hdf]
            exact hod
          · right
            cases preserve_original with
            | true => rfl
            | false =>
              exfalso
              have hbne : (orig_fn != (splitextRoot orig_fn ++
                  (if has_only_audio_and_subtitles streams then ".mka" else ".mkv"))) = true :=
                bne_iff_ne.mpr hod
              rw [hbne] at hb
              simp at hb
        constructor
        · intro fsf temp h
          have h2 : fsInsert fs (dest_fn orig_fn (some streams)) muxedContent = fsf := by
            simp at h
            exact h.1
          subst h2
          by_cases hod : orig_fn = dest_fn orig_fn (some streams)
          · have hlook : fsLookup (fsInsert fs (dest_fn orig_fn (some streams)) muxedContent)
                orig_fn = some muxedContent := by
              rw [← hod]
              exact fsLookup_fsInsert_self fs _ muxedContent
            apply iff_of_false
            · rw [hlook]
              simp
            · rintro ⟨-, -, hne', -⟩
              exact hne' hod
          · have hpres : preserve_original = true := hcase.resolve_left hod
            have hlook : fsLookup (fsInsert fs (dest_fn orig_fn (some streams)) muxedContent)
                orig_fn = some c := by
              rw [fsLookup_fsInsert_ne fs _ orig_fn muxedContent hod]
              exact horig
            apply iff_of_false
            · rw [hlook]
              simp
            · rintro ⟨-, -, -, hpf⟩
              rw [hpres] at hpf
              cases hpf
        · intro st hst hnone
          simp only [List.mem_cons, List.not_mem_nil, or_false] at hst
          rcases hst with rfl | rfl | rfl
          · rw [horig] at hnone
            cases hnone
          · rw [horig] at hnone
            cases hnone
          · exfalso
            by_cases hod : orig_fn = dest_fn orig_fn (some streams)
            · rw [← hod, fsLookup_fsInsert_self] at hnone
              cases hnone
            · rw [fsLookup_fsInsert_ne fs _ orig_fn muxedContent hod, horig] at hnone
              cases hnone

/-- C2 witness: a concrete successful run in which the original is removed,
plus the iff evaluated at the run's final filesystem. -/
theorem original_removed_iff_after_successful_move_witness :
    fsLookup [("a.mp4", 7)] "a.mp4" = some 7
    ∧ has_subtitle_stream [ProbedStream.mk "video", ProbedStream.mk "audio"] = false
    ∧ (transcribe [("a.mp4", 7)] "a.mp4" false
        (some [ProbedStream.mk "video", ProbedStream.mk "audio"]) true 99 true).trace.getLast?
        = some (fsErase (fsInsert [("a.mp4", 7)]
            (dest_fn "a.mp4" (some [ProbedStream.mk "video", ProbedStream.mk "audio"])) 99)
            "a.mp4", (none : Option Nat))
    ∧ (fsLookup (fsErase (fsInsert [("a.mp4", 7)]
          (dest_fn "a.mp4" (some [ProbedStream.mk "video", ProbedStream.mk "audio"])) 99)
          "a.mp4") "a.mp4" = none ↔
        (true = true ∧ true = true
          ∧ "a.mp4" ≠ dest_fn "a.mp4" (some [ProbedStream.mk "video", ProbedStream.mk "audio"])
          ∧ false = false)) :=
  ⟨by decide, by decide, by decide,
    (original_removed_iff_after_successful_move [("a.mp4", 7)] "a.mp4" false
      [ProbedStream.mk "video", ProbedStream.mk "audio"] true 99 true 7
      (by decide) (by decide)).1
      (fsErase (fsInsert [("a.mp4", 7)]
        (dest_fn "a.mp4" (some [ProbedStream.mk "video", ProbedStream.mk "audio"])) 99)
        "a.mp4") none (by decide)⟩

/-- C3: for an input file whose stream inventory contains a subtitle
stream, the pipeline is a no-op: the run terminates as skipped before the
recognition engine is invoked, its trace is the single unchanged initial
snapshot (no file created, modified or deleted), and in
`invoke.py:process_files` a path whose subtitle probe is positive is never
handed to the transcribe step. -/
theorem subtitle_stream_skips_without_changes
    (fs : Fs) (orig_fn : String) (preserve_original : Bool)
    (streams : List ProbedStream) (muxOk : Bool) (muxedContent : Nat) (moveOk : Bool) (c : Nat)
    (horig : fsLookup fs orig_fn = some c)
    (hs : has_subtitle_stream streams = true) :
    transcribe fs orig_fn preserve_original (some streams) muxOk muxedContent moveOk =
      ⟨[(fs, none)], false, Outcome.skipped⟩
    ∧ (∀ (keywords : List (List Char)) (files : List (String × Nat))
        (hasSub hasAud audOk : String → Bool) (p : String), hasSub p = true →
          p ∉ (Invoke.process_files keywords files hasSub hasAud audOk).2.2) := by
  refine ⟨transcribe_eq_skipped fs orig_fn c preserve_original muxOk moveOk streams
    muxedContent horig hs, ?_⟩
  intro kws files hS hA aO p hp hmem
  by_cases hk : kws.isEmpty
  · simp [Invoke.process_files, hk] at hmem
  · simp only [Invoke.process_files, hk, if_false, Bool.false_eq_true, if_neg] at hmem
    simp only [List.mem_map, List.mem_filter] at hmem
    obtain ⟨f, ⟨hfmem, hpred⟩, hfp⟩ := hmem
    rw [hfp] at hpred
    rw [hp] at hpred
    simp at hpred

/-- C3 witness: a concrete subtitle-carrying file. -/
theorem subtitle_stream_skips_without_changes_witness :
    fsLookup [("b.mkv", 3)] "b.mkv" = some 3
    ∧ has_subtitle_stream [ProbedStream.mk "video", ProbedStream.mk "subtitle"] = true
    ∧ transcribe [("b.mkv", 3)] "b.mkv" false
        (some [ProbedStream.mk "video", ProbedStream.mk "subtitle"]) true 99 true =
      ⟨[([("b.mkv", 3)], none)], false, Outcome.skipped⟩ :=
  ⟨by decide, by decide,
    (subtitle_stream_skips_without_changes [("b.mkv", 3)] "b.mkv" false
      [ProbedStream.mk "video", ProbedStream.mk "subtitle"] true 99 true 3
      (by decide) (by decide)).1⟩

/-- C4 counterexample: `transcribe.py:format_timestamp` renders 90.4
seconds (90400000 microseconds) as "00:01:30.40" — two centisecond digits
from `td.microseconds//10_000` under `:02d` — not the claimed
"00:01:30.400". -/
theorem format_timestamp_two_digit_counterexample :
    Transcribe.format_timestamp 90400000 ≠ "00:01:30.400"
    ∧ Transcribe.format_timestamp 90400000 = "00:01:30.40" := by
  constructor
  · decide
  · decide

/-- C4 amended: `main.py:format_timestamp` renders HH:MM:SS.mmm with
zero-padded fields and exactly three millisecond digits obtained by
truncation (sub-millisecond microseconds are dropped, never rounded up):
90.4 s renders as "00:01:30.400" and 3661.999 s as "01:01:01.999";
`transcribe.py:format_timestamp` instead renders only two centisecond
digits, e.g. "01:01:01.99" for 3661.999 s. -/
theorem format_timestamp_milliseconds_amended :
    MainPy.format_timestamp 90400000 = "00:01:30.400"
    ∧ MainPy.format_timestamp 3661999000 = "01:01:01.999"
    ∧ (∀ us : Nat, MainPy.format_timestamp us = MainPy.format_timestamp (us / 1000 * 1000))
    ∧ Transcribe.format_timestamp 3661999000 = "01:01:01.99" := by
  refine ⟨by decide, by decide, ?_, by decide⟩
  intro us
  exact mainpy_format_congr (by omega) (by omega)

/-- C10: both timestamp formatters are periodic with period 24 hours
(86400 seconds, i.e. 86400000000 microseconds), because `timedelta`
normalisation moves whole days into `td.days`, which neither formatter
reads. -/
theorem format_timestamp_periodic :
    ∀ us : Nat,
      Transcribe.format_timestamp (us + 86400000000) = Transcribe.format_timestamp us
      ∧ MainPy.format_timestamp (us + 86400000000) = MainPy.format_timestamp us := by
  intro us
  exact ⟨transcribe_format_congr (by omega) (by omega),
    mainpy_format_congr (by omega) (by omega)⟩

/-- C5 counterexample: `invoke.py:filter_files_by_keywords` uses
`re.match`, which anchors at the start of the basename, so the keyword
"rohn" does not match the filename "S. ROHN Interview.mp4" there,
contrary to the claim. -/
theorem keyword_match_anchored_counterexample :
    filter_files_by_keywords_match ["rohn".data] "S. ROHN Interview.mp4" = false := by
  decide

/-- C5 amended: `take.py`'s compiled matcher (applied with `.search`)
matches a keyword case-insensitively anywhere in the path when the
occurrence has a word boundary on at least one side — "rohn" matches
"S. ROHN Interview.mp4" and its lowercase form, and an occurrence with no
boundary on either side ("xROHNx.mp4") is not matched; `invoke.py`'s
filter (`re.match`) only matches a keyword at the start of the basename,
e.g. "ROHN Interview.mp4". -/
theorem keyword_match_amended :
    takeSearch ["rohn".data] "S. ROHN Interview.mp4".data = true
    ∧ takeSearch ["rohn".data] "s. rohn interview.mp4".data = true
    ∧ takeSearch ["rohn".data] "xROHNx.mp4".data = false
    ∧ filter_files_by_keywords_match ["rohn".data] "ROHN Interview.mp4" = true := by
  refine ⟨by decide, by decide, by decide, by decide⟩

/-- C6: for every candidate list, the sequence produced by
`sort_files_by_size` is non-decreasing in size, with ties kept in
discovery (input) order — for each size the subsequence of that size is
exactly the input's subsequence of that size — and is a permutation of the
candidates. -/
theorem jobs_started_sorted_by_size :
    ∀ files : List (String × Nat),
      List.Sorted (fun a b => a.2 ≤ b.2) (sortedPairs files)
      ∧ (∀ s : Nat,
          (sortedPairs files).filter (fun y => y.2 == s) = files.filter (fun y => y.2 == s))
      ∧ List.Perm (sortedPairs files) files
      ∧ sort_files_by_size files = (sortedPairs files).map Prod.fst := by
  intro files
  exact ⟨List.sorted_insertionSort _ files,
    fun s => sortedPairs_filter_stable s files,
    List.perm_insertionSort _ files, rfl⟩

/-- C7 counterexample: a second SIGINT makes `transcribe.py`'s handler run
`sys.exit(0)` and `invoke.py`'s second-stage handler run `sys.exit()` —
both terminate the process with exit status 0, not a non-zero code. -/
theorem second_interrupt_exit_code_counterexample :
    (Transcribe.signal_handler Transcribe.Sig.sigint
      (Transcribe.signal_handler Transcribe.Sig.sigint ⟨true, 0⟩).1).2 = some 0
    ∧ (Invoke.sigint_step (Invoke.sigint_step ⟨false, false⟩).1).2 = some 0 := by
  constructor
  · decide
  · decide

/-- C7 amended: a second interrupt terminates the process immediately but
with exit status 0 (`sys.exit(0)` in `transcribe.py`, bare `sys.exit()` in
`invoke.py`); status 0 is also the normal-completion exit of
`process_files` whenever the keyword set is non-empty, and the only
non-zero exit is the empty-keyword configuration error (status 1). -/
theorem second_interrupt_exit_code_amended :
    (Transcribe.signal_handler Transcribe.Sig.sigint
      (Transcribe.signal_handler Transcribe.Sig.sigint ⟨true, 0⟩).1).2 = some 0
    ∧ (Invoke.sigint_step (Invoke.sigint_step ⟨false, false⟩).1).2 = some 0
    ∧ (∀ (files : List (String × Nat)) (hasSub hasAud audOk : String → Bool),
        (Invoke.process_files [] files hasSub hasAud audOk).1 = some 1)
    ∧ (∀ (kw : List Char) (kws : List (List Char)) (files : List (String × Nat))
        (hasSub hasAud audOk : String → Bool),
        (Invoke.process_files (kw :: kws) files hasSub hasAud audOk).1 = none) := by
  refine ⟨by decide, by decide, fun files hS hA aO => rfl, fun kw kws files hS hA aO => rfl⟩

/-- C8 counterexample: in `transcribe.py` the interrupt count is not
monotone over the process lifetime: after one SIGINT it is 1, and the
`__main__` loop resets it to 0 when the current file completes, before
process exit. -/
theorem interrupt_count_reset_counterexample :
    (Transcribe.loop_run [Transcribe.LoopEvent.sigint]).sigint_count = 1
    ∧ (Transcribe.loop_run
        [Transcribe.LoopEvent.sigint, Transcribe.LoopEvent.fileComplete]).sigint_count = 0 := by
  constructor
  · decide
  · decide

/-- C8 amended: the stop-requested flags are monotone — once
`continue_processing` is false in `transcribe.py` it stays false under any
further events, `invoke.py`'s `STOP_AFTER_CURRENT` stays true, and
`take.py`'s handler only ever sets `stop_flag` to true — but
`transcribe.py`'s `sigint_count` is reset to 0 after each file completes. -/
theorem cancellation_flags_monotone_amended :
    (∀ (events : List Transcribe.LoopEvent) (s : Transcribe.SigState),
        s.continue_processing = false →
        (events.foldl Transcribe.loop_step s).continue_processing = false)
    ∧ (∀ s : Invoke.SigState, s.stop_after_current = true →
        ((Invoke.sigint_step s).1).stop_after_current = true)
    ∧ (∀ b : Bool, Take.signal_handler b = true)
    ∧ (∀ s : Transcribe.SigState,
        (Transcribe.loop_step s Transcribe.LoopEvent.fileComplete).sigint_count = 0) := by
  refine ⟨?_, ?_, fun b => rfl, fun s => rfl⟩
  · have hstep : ∀ (s : Transcribe.SigState) (e : Transcribe.LoopEvent),
        s.continue_processing = false →
        (Transcribe.loop_step s e).continue_processing = false := by
      intro s e hs
      cases e with
      | sighup => rfl
      | sigint =>
        simp only [Transcribe.loop_step, Transcribe.signal_handler]
        by_cases h : s.sigint_count + 1 == 1
        · simp [h]
        · simp [h, hs]
      | fileComplete => exact hs
    intro events
    induction events with
    | nil => intro s hs; exact hs
    | cons e t ih =>
      intro s hs
      exact ih (Transcribe.loop_step s e) (hstep s e hs)
  · intro s hs
    simp only [Invoke.sigint_step]
    by_cases h : s.handler_is_second
    · simp [h, hs]
    · simp [h]

/-- C8 amended witness: the monotonicity applied after a file-complete
event from a stopped state. -/
theorem cancellation_flags_monotone_amended_witness :
    (Transcribe.SigState.mk false 1).continue_processing = false
    ∧ ([Transcribe.LoopEvent.fileComplete, Transcribe.LoopEvent.sigint].foldl
        Transcribe.loop_step (Transcribe.SigState.mk false 1)).continue_processing = false
    ∧ (Invoke.SigState.mk true true).stop_after_current = true
    ∧ ((Invoke.sigint_step (Invoke.SigState.mk true true)).1).stop_after_current = true :=
  ⟨rfl,
    cancellation_flags_monotone_amended.1
      [Transcribe.LoopEvent.fileComplete, Transcribe.LoopEvent.sigint]
      (Transcribe.SigState.mk false 1) rfl,
    rfl,
    cancellation_flags_monotone_amended.2.1 (Invoke.SigState.mk true true) rfl⟩

/-- C9 counterexample: with an empty keyword set, `take.py` does not exit:
its compiled pattern degenerates to a bare word-boundary match, so the
candidate "video.mp4" passes the keyword filter and is probed
(`has_audio_stream` is called on it) rather than the process exiting
non-zero before any probe. -/
theorem empty_keywords_take_no_exit_counterexample :
    Take.run_filter [] ["video.mp4"] = (none, ["video.mp4"]) := by
  decide

/-- C9 amended: in `invoke.py:process_files` an empty loaded keyword set
exits the process with status 1 before any candidate is probed,
transcribed or modified (the scan generators are lazy and never pulled);
`take.py` has no such check — with an empty keyword set its pattern
matches any filename containing a word boundary and candidates are probed
normally. -/
theorem empty_keywords_config_error_amended :
    (∀ (files : List (String × Nat)) (hasSub hasAud audOk : String → Bool),
        Invoke.process_files [] files hasSub hasAud audOk = (some 1, [], []))
    ∧ Take.run_filter [] ["video.mp4"] = (none, ["video.mp4"]) := by
  refine ⟨fun files hS hA aO => rfl, by decide⟩
